import Mathlib

/-!
Verification of the Cheerp PreExecute subsystem (est31/cheerp-llvm).

Shallow embedding of:
- `Allocator` and the Address Map it registers regions in
  (src/include/llvm/Cheerp/PreExecute.h)
- `PreExecute`'s typed-allocation tracker (`recordTypedAllocation`,
  `releaseTypedAllocation`) and store recorder
- `CallGlobalConstructorsOnStartPass::runOnModule`
  (src/lib/Target/CheerpWasmBackend/CheerpWasmBackend.cpp)
- `Interpreter::create` and `Interpreter::runFunction`
  (src/lib/ExecutionEngine/Interpreter/Interpreter.cpp)

Sandbox addresses are modelled as `Nat`; `llvm::Type*` and function
pointers as `Nat` identifiers.
-/

namespace CheerpPreExecute

/-- A synthetic sandbox address. -/
abbrev Addr := Nat

/-- Modelled from the spec: the class `llvm::AddressMapBase` is not under
src/ (only referenced from PreExecute.h).  Per the spec, the Address Map is
the registry relating sandbox addresses to regions: `map(addr, n)` registers
the region `[addr, addr+n)`, `unmap(addr)` unregisters the region starting
at `addr`.  Regions are kept as (start, length) pairs. -/
structure AddressMap where
  regions : List (Addr × Nat)
deriving DecidableEq, Repr

/-- `map(addr, n)`: register the region `[addr, addr+n)`. -/
def AddressMap.map (m : AddressMap) (a : Addr) (n : Nat) : AddressMap :=
  ⟨(a, n) :: m.regions⟩

/-- `unmap(addr)`: unregister the region starting at `addr`. -/
def AddressMap.unmap (m : AddressMap) (a : Addr) : AddressMap :=
  ⟨m.regions.filter (fun r => r.1 ≠ a)⟩

/-- Whether some registered region starts at `a`. -/
def AddressMap.isMappedStart (m : AddressMap) (a : Addr) : Bool :=
  m.regions.any (fun r => r.1 = a)

/-- Whether the address `x` lies inside some registered region. -/
def AddressMap.containsAddr (m : AddressMap) (x : Addr) : Bool :=
  m.regions.any (fun r => r.1 ≤ x && x < r.1 + r.2)

/-- Embedding of `cheerp::Allocator` (PreExecute.h, lines 38-64): it owns the
backing buffers (`allocations`, the vector of `unique_ptr<char[]>`, kept here
as the list of their start addresses) and holds a reference to the Address
Map (`mapping`), modelled as a state component. -/
structure Allocator where
  allocations : List Addr
  mapping : AddressMap
deriving DecidableEq, Repr

/-- `Allocator::allocate(size)`: back a fresh region (the host address the
`make_unique<char[]>(size)` call returns is the oracle parameter `fresh`),
register it with `mapping.map(ret, size + 4)`, remember the buffer, and
return its start address. -/
def Allocator.allocate (A : Allocator) (size : Nat) (fresh : Addr) :
    Allocator × Addr :=
  let m := A.mapping.map fresh (size + 4)
  (⟨A.allocations ++ [fresh], m⟩, fresh)

/-- `Allocator::deallocate()`: unmap every owned buffer from the Address Map,
then drop all backing buffers (`allocations.clear()`). -/
def Allocator.deallocate (A : Allocator) : Allocator :=
  ⟨[], A.allocations.foldl (fun m a => m.unmap a) A.mapping⟩

/-- One step of a pre-execution session as seen by the Allocator: either the
Allocator serves an allocation (with the host-chosen fresh address), or the
interpreted code frees a region itself, which unregisters it from the shared
Address Map but does not touch the Allocator's buffer list. -/
inductive SessionOp where
  | alloc (size : Nat) (fresh : Addr)
  | interpFree (a : Addr)
deriving DecidableEq, Repr

/-- Run a session: apply each operation in order to the Allocator state. -/
def runOps (A : Allocator) : List SessionOp → Allocator
  | [] => A
  | SessionOp.alloc s f :: rest => runOps (A.allocate s f).1 rest
  | SessionOp.interpFree a :: rest =>
      runOps ⟨A.allocations, A.mapping.unmap a⟩ rest

/-- Embedding of `cheerp::AllocData` (PreExecute.h, lines 28-36): the default
constructor leaves `globalValue` and `allocType` null and `size` zero. -/
structure AllocData where
  globalValue : Option Nat
  allocType : Option Nat
  size : Nat
deriving DecidableEq, Repr

/-- `AllocData()` default constructor. -/
def AllocData.init : AllocData := ⟨none, none, 0⟩

/-- The `std::map<char*, AllocData>` keyed by buffer address, as an
association list whose keys are kept distinct by construction. -/
abbrev TypedAllocs := List (Addr × AllocData)

/-- `typedAllocations.find(buf) != end()`. -/
def hasRecord (t : TypedAllocs) (buf : Addr) : Bool :=
  t.any (fun p => p.1 = buf)

/-- Value found for `buf`, if any. -/
def lookupAlloc (t : TypedAllocs) (buf : Addr) : Option AllocData :=
  (t.find? (fun p => p.1 = buf)).map (fun p => p.2)

/-- `std::map::insert(make_pair(buf, data))`: inserts only when no element
with that key exists; otherwise the map is unchanged. -/
def mapInsert (t : TypedAllocs) (buf : Addr) (d : AllocData) : TypedAllocs :=
  if hasRecord t buf then t else (buf, d) :: t

/-- `typedAllocations.erase(it)` after `it = find(buf)`: removes the (unique)
element whose key is `buf`. -/
def mapErase (t : TypedAllocs) (buf : Addr) : TypedAllocs :=
  t.eraseP (fun p => p.1 = buf)

/-- The relevant mutable state of the `cheerp::PreExecute` pass:
`modifiedGlobals` (global → reconstructed constant id) and
`typedAllocations` from PreExecute.h lines 76-77, plus the StoreLog that
`recordStore` accumulates (its body lives in PreExecute.cpp, outside src/;
modelled from the spec below). -/
structure PreExecuteState where
  modifiedGlobals : List (Nat × Nat)
  typedAllocations : TypedAllocs
  storeLog : List Addr
deriving DecidableEq, Repr

/-- `PreExecute::recordTypedAllocation(type, size, buf)` (PreExecute.h,
lines 87-92): build an `AllocData` with the given type and size and
`typedAllocations.insert(make_pair(buf, data))`. -/
def recordTypedAllocation (s : PreExecuteState) (type : Nat) (size : Nat)
    (buf : Addr) : PreExecuteState :=
  let data : AllocData := { AllocData.init with allocType := some type, size := size }
  { s with typedAllocations := mapInsert s.typedAllocations buf data }

/-- `PreExecute::releaseTypedAllocation(buf)` (PreExecute.h, lines 93-97):
`find(buf)`, assert it was found, then `erase(it)`.  The assertion failure
is modelled as `none`. -/
def releaseTypedAllocation (s : PreExecuteState) (buf : Addr) :
    Option PreExecuteState :=
  if hasRecord s.typedAllocations buf then
    some { s with typedAllocations := mapErase s.typedAllocations buf }
  else
    none

/-- Modelled from the spec: the body of `PreExecute::recordStore` is in
PreExecute.cpp, which is not under src/ (only the declaration at
PreExecute.h line 86 and the `InstallStoreListener` hook are).  Per the
spec, the recorder itself deduplicates — addresses collapse into a set —
and recording is purely additive with no reconstruction at record time. -/
def recordStore (s : PreExecuteState) (addr : Addr) : PreExecuteState :=
  if addr ∈ s.storeLog then s
  else { s with storeLog := addr :: s.storeLog }

/-- A whole run's worth of store notifications, applied in order. -/
def runStores (s : PreExecuteState) (addrs : List Addr) : PreExecuteState :=
  addrs.foldl recordStore s

/-- A reconstructed compile-time constant (the shapes the pointer case of
the reconstructor can produce). -/
inductive LConstant where
  | nullPtr
  | globalRef (owner : Nat) (offset : Nat)
  | intConst (v : Nat)
  | absConst (v : Nat)
deriving DecidableEq, Repr

/-- A region tracked by the Address Map together with its logical owner
(a global or a typed allocation), as the reconstructor queries it. -/
structure Region where
  start : Addr
  len : Nat
  owner : Nat
deriving DecidableEq, Repr

/-- Which tracked region (if any) contains the raw address `raw`. -/
def findRegion (regions : List Region) (raw : Addr) : Option Region :=
  regions.find? (fun r => r.start ≤ raw && raw < r.start + r.len)

/-- Modelled from the spec: the body of
`PreExecute::computeInitializerFromMemory` is in PreExecute.cpp, which is
not under src/ (only the declaration at PreExecute.h lines 106-107 is).
This is its pointer case, per spec §4.4 step 3: the raw stored value is
resolved through the Address Map; a hit yields a symbolic reference to the
owning object plus the interior offset; a miss yields the null-pointer
constant when the raw value is the zero sentinel, a hard failure (`none`,
aborting reconstruction of the enclosing global) in a restricted/sandboxed
address space (`asmjs`), and an absolute-address constant otherwise. -/
def computePointerFromMemory (regions : List Region) (raw : Addr)
    (asmjs : Bool) : Option LConstant :=
  match findRegion regions raw with
  | some r => some (LConstant.globalRef r.owner (raw - r.start))
  | none =>
    if raw = 0 then some LConstant.nullPtr
    else if asmjs then none
    else some (LConstant.absConst raw)

/-- A global variable slot: its current initializer and whether its
original constructor call is still in place. -/
structure GlobalSlot where
  init : LConstant
  ctorCallPresent : Bool
deriving DecidableEq, Repr

/-- Modelled from the spec: the commit phase of the orchestrator (in
PreExecute.cpp, not under src/).  A successfully reconstructed constant
replaces the global's initializer and elides its constructor call; a failed
reconstruction (`none`) leaves the global's initializer and constructor
call unchanged. -/
def commitReconstruction (g : GlobalSlot) (recon : Option LConstant) :
    GlobalSlot :=
  match recon with
  | none => g
  | some c => { init := c, ctorCallPresent := false }

/-- One entry of `llvm.global_ctors`: the constructor function (an id) and
the section of that function, as `CallGlobalConstructorsOnStartPass`
inspects them. -/
structure CtorEntry where
  fn : Nat
  sec : String
deriving DecidableEq, Repr

/-- The loop of `CallGlobalConstructorsOnStartPass::runOnModule`
(CheerpWasmBackend.cpp, lines 172-183): walk the `llvm.global_ctors`
operands in order; skip any whose function is not in the `asmjs` section;
emit a call to each remaining one.  Returns the emitted call sequence. -/
def buildStartCalls : List CtorEntry → List Nat
  | [] => []
  | e :: rest =>
    if e.sec = "asmjs" then e.fn :: buildStartCalls rest
    else buildStartCalls rest

/-- `CallGlobalConstructorsOnStartPass::runOnModule` (CheerpWasmBackend.cpp,
lines 151-195): no start function is constructed when a wasm loader is in
use or when there are no global constructors; otherwise a `_start` function
is created containing the calls of `buildStartCalls`. -/
def ctorsRunOnModule (wasmLoader : String) (ctors : List CtorEntry) :
    Option (List Nat) :=
  if wasmLoader ≠ "" then none
  else if ctors.isEmpty then none
  else some (buildStartCalls ctors)

/-- `ArgValues[i]` for `i < ArgCount` in `Interpreter::runFunction`
(Interpreter.cpp, lines 96-99): the loop pushes `ArgValues[i]` for each
`i` below the declared parameter count.  Out-of-range indexing is undefined
behaviour in the source; the default is unreachable whenever
`n ≤ args.length`, which the claims assume. -/
def buildActualArgs (args : List Nat) (n : Nat) : List Nat :=
  (List.range n).map (fun i => args.getD i 0)

/-- `Interpreter::runFunction(F, ArgValues)` (Interpreter.cpp, lines 84-108),
parameterised over the interpreter's opaque call/run semantics: build
`ActualArgs` from the first `numParams` entries, `callFunction`, `run`, and
return the exit value. -/
def runFunction {St : Type} (callFunction : Nat → List Nat → St)
    (run : St → St) (exitValue : St → Nat) (F : Nat) (numParams : Nat)
    (args : List Nat) : Nat :=
  exitValue (run (callFunction F (buildActualArgs args numParams)))

/-- An `std::error_code` as `Interpreter::create` consumes it: only its
message matters here. -/
structure ErrorCode where
  message : String
deriving DecidableEq, Repr

/-- A module, abstracted to what `Interpreter::create` observes: the outcome
of `materializeAllPermanently()` (`some EC` models failure with that error
code, `none` models success). -/
structure LModule where
  materializeResult : Option ErrorCode
deriving DecidableEq, Repr

/-- The interpreter object `new Interpreter(std::move(M), preExecute)`
constructs. -/
structure Engine where
  module : LModule
  forPreExecute : Bool
deriving DecidableEq, Repr

/-- `Interpreter::create` (Interpreter.cpp, lines 35-47).  The first
component is the returned pointer (`none` = null); the second is what got
written through `ErrStr` (`errStrPresent` models `ErrStr != nullptr`;
`some msg` means `*ErrStr = msg` was performed). -/
def interpreterCreate (M : LModule) (preExecute : Bool)
    (errStrPresent : Bool) : Option Engine × Option String :=
  match M.materializeResult with
  | some EC => (none, if errStrPresent then some EC.message else none)
  | none => (some ⟨M, preExecute⟩, none)

/-! ## Helper lemmas -/

theorem unmap_self_not_mapped (m : AddressMap) (a : Addr) :
    (m.unmap a).isMappedStart a = false := by
  simp only [AddressMap.unmap, AddressMap.isMappedStart, List.any_eq_false]
  intro r hr
  rcases List.mem_filter.mp hr with ⟨_, h2⟩
  simpa using h2

theorem unmap_preserves_not_mapped (m : AddressMap) (a b : Addr)
    (h : m.isMappedStart a = false) : (m.unmap b).isMappedStart a = false := by
  simp only [AddressMap.unmap, AddressMap.isMappedStart, List.any_eq_false] at *
  intro r hr
  exact h r (List.mem_filter.mp hr).1

theorem foldl_unmap_preserves_not_mapped (l : List Addr) (m : AddressMap)
    (a : Addr) (h : m.isMappedStart a = false) :
    (l.foldl (fun m x => m.unmap x) m).isMappedStart a = false := by
  induction l generalizing m with
  | nil => exact h
  | cons b rest ih =>
      exact ih (m.unmap b) (unmap_preserves_not_mapped m a b h)

theorem foldl_unmap_removes (l : List Addr) (m : AddressMap) (a : Addr)
    (h : a ∈ l) :
    (l.foldl (fun m x => m.unmap x) m).isMappedStart a = false := by
  induction l generalizing m with
  | nil => cases h
  | cons b rest ih =>
      rcases List.mem_cons.mp h with h1 | h2
      · subst h1
        by_cases hmem : a ∈ rest
        · exact ih (m.unmap a) hmem
        · exact foldl_unmap_preserves_not_mapped rest (m.unmap a) a
            (unmap_self_not_mapped m a)
      · exact ih (m.unmap b) h2

theorem runOps_allocations_grow (ops : List SessionOp) (A : Allocator)
    (a : Addr) (h : a ∈ A.allocations) : a ∈ (runOps A ops).allocations := by
  induction ops generalizing A with
  | nil => exact h
  | cons op rest ih =>
      cases op with
      | alloc s f =>
          exact ih (A.allocate s f).1 (by
            simp [Allocator.allocate, List.mem_append]
            exact Or.inl h)
      | interpFree b => exact ih ⟨A.allocations, A.mapping.unmap b⟩ h

/-! ## C2 -/

/-- C2 counterexample: `Allocator::allocate` does not register exactly
`[address, address+size)`.  Starting from an empty Address Map,
`allocate(8)` backed at host address 100 registers the single region
`(100, 12)` — that is `[100, 112)`, four bytes more than the claimed
`[100, 108)` — so address 108, which lies outside `[100, 108)`, is
registered. -/
theorem allocate_registers_plus4_counterexample :
    ((Allocator.allocate ⟨[], ⟨[]⟩⟩ 8 100).1.mapping.regions = [(100, 12)]) ∧
    ((Allocator.allocate ⟨[], ⟨[]⟩⟩ 8 100).1.mapping.containsAddr 108 = true) ∧
    ¬ (108 < 100 + 8) := by
  refine ⟨rfl, by decide, by decide⟩

/-- C2 (amended): `Allocator::allocate(s)` at fresh host address `f`
returns `f`, appends the new backing buffer to the allocator's list, and
registers exactly the region `[f, f+s+4)` in the Address Map — the
requested size plus four trailing bytes — so an address is covered by the
new map iff it was already covered or lies in `[f, f+s+4)`. -/
theorem allocate_registers_region (A : Allocator) (s f : Nat) :
    ((A.allocate s f).2 = f) ∧
    ((A.allocate s f).1.allocations = A.allocations ++ [f]) ∧
    ((A.allocate s f).1.mapping.regions = (f, s + 4) :: A.mapping.regions) ∧
    (∀ x, (A.allocate s f).1.mapping.containsAddr x =
      (A.mapping.containsAddr x || (decide (f ≤ x) && decide (x < f + s + 4)))) := by
  refine ⟨rfl, rfl, rfl, fun x => ?_⟩
  simp [Allocator.allocate, AddressMap.map, AddressMap.containsAddr,
    List.any_cons, Bool.or_comm, Nat.add_assoc]

/-! ## C4 -/

/-- C4: for every sequence of session operations (allocations with
host-chosen fresh addresses, interleaved with any number of deallocations
performed by the interpreted code directly against the Address Map),
running the Allocator's session-end release (`Allocator::deallocate`, also
invoked by its destructor) leaves zero regions allocated by this Allocator
registered in the Address Map, and frees every backing buffer. -/
theorem deallocate_unregisters_all (m0 : AddressMap) (ops : List SessionOp) :
    ((runOps ⟨[], m0⟩ ops).deallocate.allocations = []) ∧
    (∀ a, a ∈ (runOps ⟨[], m0⟩ ops).allocations →
      (runOps ⟨[], m0⟩ ops).deallocate.mapping.isMappedStart a = false) := by
  refine ⟨rfl, fun a ha => ?_⟩
  exact foldl_unmap_removes _ _ a ha

/-- C4 witness: a session with two allocations and one interpreted-code
free; after `deallocate`, neither allocated address is still registered. -/
theorem deallocate_unregisters_all_witness :
    ((runOps ⟨[], ⟨[]⟩⟩ [SessionOp.alloc 8 100, SessionOp.alloc 4 200,
        SessionOp.interpFree 100]).deallocate.allocations = []) ∧
    ((runOps ⟨[], ⟨[]⟩⟩ [SessionOp.alloc 8 100, SessionOp.alloc 4 200,
        SessionOp.interpFree 100]).deallocate.mapping.isMappedStart 200 = false) := by
  have h := deallocate_unregisters_all ⟨[]⟩
    [SessionOp.alloc 8 100, SessionOp.alloc 4 200, SessionOp.interpFree 100]
  exact ⟨h.1, h.2 200 (by decide)⟩

/-! ## Typed-allocation tracker lemmas -/

theorem lookupAlloc_cons_of_pos (p : Addr × AllocData) (rest : TypedAllocs)
    (k : Addr) (h : p.1 = k) : lookupAlloc (p :: rest) k = some p.2 := by
  simp only [lookupAlloc]
  rw [List.find?_cons_of_pos _ (by simpa using h)]
  rfl

theorem lookupAlloc_cons_of_neg (p : Addr × AllocData) (rest : TypedAllocs)
    (k : Addr) (h : ¬ p.1 = k) : lookupAlloc (p :: rest) k = lookupAlloc rest k := by
  simp only [lookupAlloc]
  rw [List.find?_cons_of_neg _ (by simpa using h)]

theorem lookupAlloc_eq_none_of_not_mem (t : TypedAllocs) (b : Addr)
    (h : b ∉ t.map Prod.fst) : lookupAlloc t b = none := by
  unfold lookupAlloc
  rw [Option.map_eq_none']
  apply List.find?_eq_none.mpr
  intro p hp
  simp only [decide_eq_true_eq]
  intro hpb
  exact h (List.mem_map.mpr ⟨p, hp, hpb⟩)

theorem lookupAlloc_mapErase_self (t : TypedAllocs) (b : Addr)
    (h : (t.map Prod.fst).Nodup) : lookupAlloc (mapErase t b) b = none := by
  induction t with
  | nil => rfl
  | cons p rest ih =>
      rw [List.map_cons] at h
      rcases List.nodup_cons.mp h with ⟨hnot, hrest⟩
      by_cases hp : p.1 = b
      · have he : mapErase (p :: rest) b = rest := by
          simp [mapErase, List.eraseP_cons, hp]
        rw [he]
        exact lookupAlloc_eq_none_of_not_mem rest b (by rw [← hp]; exact hnot)
      · have he : mapErase (p :: rest) b = p :: mapErase rest b := by
          simp [mapErase, List.eraseP_cons, hp]
        rw [he, lookupAlloc_cons_of_neg p _ b hp]
        exact ih hrest

theorem lookupAlloc_mapErase_other (t : TypedAllocs) (b k : Addr)
    (h : k ≠ b) : lookupAlloc (mapErase t b) k = lookupAlloc t k := by
  induction t with
  | nil => rfl
  | cons p rest ih =>
      by_cases hp : p.1 = b
      · have he : mapErase (p :: rest) b = rest := by
          simp [mapErase, List.eraseP_cons, hp]
        rw [he, lookupAlloc_cons_of_neg p rest k (by rw [hp]; exact fun hk => h hk.symm)]
      · have he : mapErase (p :: rest) b = p :: mapErase rest b := by
          simp [mapErase, List.eraseP_cons, hp]
        rw [he]
        by_cases hk : p.1 = k
        · rw [lookupAlloc_cons_of_pos p _ k hk, lookupAlloc_cons_of_pos p rest k hk]
        · rw [lookupAlloc_cons_of_neg p _ k hk, lookupAlloc_cons_of_neg p rest k hk]
          exact ih

theorem record_unchanged_of_hasRecord (s : PreExecuteState) (type size : Nat)
    (buf : Addr) (h : hasRecord s.typedAllocations buf = true) :
    recordTypedAllocation s type size buf = s := by
  simp [recordTypedAllocation, mapInsert, h]

theorem hasRecord_after_record (s : PreExecuteState) (type size : Nat)
    (buf : Addr) :
    hasRecord (recordTypedAllocation s type size buf).typedAllocations buf = true := by
  by_cases h2 : hasRecord s.typedAllocations buf
  · simp [recordTypedAllocation, mapInsert, h2]
  · simp only [Bool.not_eq_true] at h2
    have he : (recordTypedAllocation s type size buf).typedAllocations =
        (buf, ⟨none, some type, size⟩) :: s.typedAllocations := by
      simp [recordTypedAllocation, mapInsert, h2, AllocData.init]
    rw [he]
    simp [hasRecord]

/-! ## C3 -/

/-- C3 counterexample: `recordTypedAllocation` performs no
size-consistency check against the Address Map.  After `allocate(8)` at
address 100 the Address Map holds the region `(100, 12)`, yet recording a
typed allocation at 100 with size 999 — inconsistent with both the
requested 8 and the registered 12 — is not rejected: the record with size
999 is attached. -/
theorem recordTypedAllocation_no_size_check :
    ((Allocator.allocate ⟨[], ⟨[]⟩⟩ 8 100).1.mapping.regions = [(100, 12)]) ∧
    (999 ≠ 12) ∧ (999 ≠ 8) ∧
    ((recordTypedAllocation ⟨[], [], []⟩ 7 999 100).typedAllocations =
      [(100, ⟨none, some 7, 999⟩)]) := by
  refine ⟨rfl, by decide, by decide, rfl⟩

/-- C3 (amended): `recordTypedAllocation(type, size, buf)` never fails and
never consults the Address Map: when no typed allocation is recorded for
`buf` it unconditionally attaches the given type and size (with any size,
consistent or not); when one is already recorded the call leaves the state
unchanged. -/
theorem recordTypedAllocation_total (s : PreExecuteState) (type size : Nat)
    (buf : Addr) :
    (hasRecord s.typedAllocations buf = false →
      (recordTypedAllocation s type size buf).typedAllocations =
        (buf, ⟨none, some type, size⟩) :: s.typedAllocations) ∧
    (hasRecord s.typedAllocations buf = true →
      recordTypedAllocation s type size buf = s) := by
  constructor
  · intro h
    simp [recordTypedAllocation, mapInsert, h, AllocData.init]
  · intro h
    simp [recordTypedAllocation, mapInsert, h]

/-- C3 witness: on a fresh state, recording at address 100 attaches the
record; on the resulting state, whose record exists, recording leaves the
state unchanged. -/
theorem recordTypedAllocation_total_witness :
    ((recordTypedAllocation ⟨[], [], []⟩ 7 999 100).typedAllocations =
      [(100, ⟨none, some 7, 999⟩)]) ∧
    (recordTypedAllocation ⟨[], [(100, ⟨none, some 7, 999⟩)], []⟩ 3 4 100 =
      ⟨[], [(100, ⟨none, some 7, 999⟩)], []⟩) := by
  refine ⟨(recordTypedAllocation_total ⟨[], [], []⟩ 7 999 100).1 (by decide),
    (recordTypedAllocation_total ⟨[], [(100, ⟨none, some 7, 999⟩)], []⟩ 3 4 100).2
      (by decide)⟩

/-! ## C8 -/

/-- C8: once an address has a typed-allocation record, any further
`recordTypedAllocation` for that address, with any type and size, leaves
the state completely unchanged and signals no error; in particular
recording after recording equals recording once. -/
theorem recordTypedAllocation_retains_first (s : PreExecuteState)
    (type size type' size' : Nat) (buf : Addr)
    (h : hasRecord s.typedAllocations buf = true) :
    (recordTypedAllocation s type' size' buf = s) ∧
    (∀ s₂ : PreExecuteState,
      recordTypedAllocation (recordTypedAllocation s₂ type size buf)
        type' size' buf = recordTypedAllocation s₂ type size buf) := by
  constructor
  · exact record_unchanged_of_hasRecord s type' size' buf h
  · intro s₂
    exact record_unchanged_of_hasRecord _ type' size' buf
      (hasRecord_after_record s₂ type size buf)

/-- C8 witness: with a record of type 7 and size 999 at address 100 in
place, recording type 3 and size 4 there changes nothing. -/
theorem recordTypedAllocation_retains_first_witness :
    recordTypedAllocation ⟨[], [(100, ⟨none, some 7, 999⟩)], []⟩ 3 4 100 =
      ⟨[], [(100, ⟨none, some 7, 999⟩)], []⟩ := by
  exact (recordTypedAllocation_retains_first
    ⟨[], [(100, ⟨none, some 7, 999⟩)], []⟩ 1 2 3 4 100 (by decide)).1

/-! ## C5 -/

/-- C5: `releaseTypedAllocation(buf)` hits its assertion (modelled as
`none`) exactly when no typed allocation is recorded for `buf`; when one is
recorded (keys being distinct, as `std::map` guarantees), the call removes
exactly that record: afterwards `buf` has no record, every other address
resolves as before, and the rest of the state is untouched. -/
theorem releaseTypedAllocation_exact (s : PreExecuteState) (buf : Addr) :
    (releaseTypedAllocation s buf = none ↔
      hasRecord s.typedAllocations buf = false) ∧
    ((s.typedAllocations.map Prod.fst).Nodup →
      hasRecord s.typedAllocations buf = true →
      ∃ s', releaseTypedAllocation s buf = some s' ∧
        lookupAlloc s'.typedAllocations buf = none ∧
        (∀ k, k ≠ buf →
          lookupAlloc s'.typedAllocations k = lookupAlloc s.typedAllocations k) ∧
        s'.modifiedGlobals = s.modifiedGlobals ∧ s'.storeLog = s.storeLog) := by
  constructor
  · constructor
    · intro h
      by_contra hc
      simp only [Bool.not_eq_false] at hc
      simp [releaseTypedAllocation, hc] at h
    · intro h
      simp [releaseTypedAllocation, h]
  · intro hnd h
    refine ⟨{ s with typedAllocations := mapErase s.typedAllocations buf },
      by simp [releaseTypedAllocation, h], ?_, ?_, rfl, rfl⟩
    · exact lookupAlloc_mapErase_self s.typedAllocations buf hnd
    · intro k hk
      exact lookupAlloc_mapErase_other s.typedAllocations buf k hk

/-- C5 witness: with exactly one record at address 100, releasing address
200 signals the assertion, and releasing address 100 removes the record. -/
theorem releaseTypedAllocation_exact_witness :
    (releaseTypedAllocation ⟨[], [(100, ⟨none, some 7, 999⟩)], []⟩ 200 = none) ∧
    (∃ s', releaseTypedAllocation ⟨[], [(100, ⟨none, some 7, 999⟩)], []⟩ 100 =
        some s' ∧ lookupAlloc s'.typedAllocations 100 = none) := by
  constructor
  · exact (releaseTypedAllocation_exact
      ⟨[], [(100, ⟨none, some 7, 999⟩)], []⟩ 200).1.mpr (by decide)
  · rcases (releaseTypedAllocation_exact
      ⟨[], [(100, ⟨none, some 7, 999⟩)], []⟩ 100).2 (by decide) (by decide) with
      ⟨s', h1, h2, _⟩
    exact ⟨s', h1, h2⟩

/-! ## Store-recorder lemmas -/

theorem recordStore_modifiedGlobals (s : PreExecuteState) (a : Addr) :
    (recordStore s a).modifiedGlobals = s.modifiedGlobals := by
  by_cases h : a ∈ s.storeLog <;> simp [recordStore, h]

theorem recordStore_typedAllocations (s : PreExecuteState) (a : Addr) :
    (recordStore s a).typedAllocations = s.typedAllocations := by
  by_cases h : a ∈ s.storeLog <;> simp [recordStore, h]

theorem recordStore_mem_self (s : PreExecuteState) (a : Addr) :
    a ∈ (recordStore s a).storeLog := by
  by_cases h : a ∈ s.storeLog <;> simp [recordStore, h]

theorem recordStore_mem_mono (s : PreExecuteState) (a b : Addr)
    (h : b ∈ s.storeLog) : b ∈ (recordStore s a).storeLog := by
  by_cases ha : a ∈ s.storeLog <;> simp [recordStore, ha, h]

theorem recordStore_nodup (s : PreExecuteState) (a : Addr)
    (h : s.storeLog.Nodup) : (recordStore s a).storeLog.Nodup := by
  by_cases ha : a ∈ s.storeLog
  · simpa [recordStore, ha] using h
  · simp only [recordStore, ha, if_false]
    exact List.nodup_cons.mpr ⟨ha, h⟩

theorem runStores_modifiedGlobals (addrs : List Addr) (s : PreExecuteState) :
    (runStores s addrs).modifiedGlobals = s.modifiedGlobals := by
  induction addrs generalizing s with
  | nil => rfl
  | cons a rest ih =>
      simpa [runStores] using
        (ih (recordStore s a)).trans (recordStore_modifiedGlobals s a)

theorem runStores_typedAllocations (addrs : List Addr) (s : PreExecuteState) :
    (runStores s addrs).typedAllocations = s.typedAllocations := by
  induction addrs generalizing s with
  | nil => rfl
  | cons a rest ih =>
      simpa [runStores] using
        (ih (recordStore s a)).trans (recordStore_typedAllocations s a)

theorem runStores_mem_mono (addrs : List Addr) (s : PreExecuteState)
    (b : Addr) (h : b ∈ s.storeLog) : b ∈ (runStores s addrs).storeLog := by
  induction addrs generalizing s with
  | nil => exact h
  | cons a rest ih =>
      exact ih (recordStore s a) (recordStore_mem_mono s a b h)

theorem runStores_mem_of_recorded (addrs : List Addr) (s : PreExecuteState)
    (b : Addr) (h : b ∈ addrs) : b ∈ (runStores s addrs).storeLog := by
  induction addrs generalizing s with
  | nil => cases h
  | cons a rest ih =>
      rcases List.mem_cons.mp h with h1 | h2
      · subst h1
        exact runStores_mem_mono rest (recordStore s b) b
          (recordStore_mem_self s b)
      · exact ih (recordStore s a) h2

theorem runStores_nodup (addrs : List Addr) (s : PreExecuteState)
    (h : s.storeLog.Nodup) : (runStores s addrs).storeLog.Nodup := by
  induction addrs generalizing s with
  | nil => exact h
  | cons a rest ih => exact ih (recordStore s a) (recordStore_nodup s a h)

/-! ## C7 -/

/-- C7: for every sequence of `recordStore` calls during one run, starting
from any state whose StoreLog is duplicate-free, the StoreLog stays a set
(each address occurs at most once), every previously logged address is
still logged (purely additive) and every recorded address is logged, and
no reconstruction happens at record time: the modified-globals map and the
typed-allocation tracker are untouched. -/
theorem recordStore_set_semantics (s : PreExecuteState) (addrs : List Addr)
    (h : s.storeLog.Nodup) :
    ((runStores s addrs).storeLog.Nodup) ∧
    (∀ b, b ∈ s.storeLog → b ∈ (runStores s addrs).storeLog) ∧
    (∀ b, b ∈ addrs → b ∈ (runStores s addrs).storeLog) ∧
    ((runStores s addrs).modifiedGlobals = s.modifiedGlobals) ∧
    ((runStores s addrs).typedAllocations = s.typedAllocations) := by
  exact ⟨runStores_nodup addrs s h,
    fun b hb => runStores_mem_mono addrs s b hb,
    fun b hb => runStores_mem_of_recorded addrs s b hb,
    runStores_modifiedGlobals addrs s,
    runStores_typedAllocations addrs s⟩

/-- C7 witness: recording addresses 5, 7, 5, 7 on an empty log yields the
duplicate-free log containing 5 and 7 and leaves the rest of the state
untouched. -/
theorem recordStore_set_semantics_witness :
    ((runStores ⟨[], [], []⟩ [5, 7, 5, 7]).storeLog.Nodup) ∧
    (5 ∈ (runStores ⟨[], [], []⟩ [5, 7, 5, 7]).storeLog) ∧
    ((runStores ⟨[], [], []⟩ [5, 7, 5, 7]).modifiedGlobals = []) := by
  have h := recordStore_set_semantics ⟨[], [], []⟩ [5, 7, 5, 7] (by decide)
  exact ⟨h.1, h.2.2.1 5 (by decide), h.2.2.2.1⟩

/-! ## C1 -/

/-- C1: when the raw stored pointer value read back by the reconstructor
lies outside every region tracked in the Address Map, the result is the
null-pointer constant when the raw value is the zero sentinel and, in a
restricted/sandboxed address space, a hard failure otherwise: the pointer
case yields `none`, and committing that failure leaves the enclosing
global's initializer and constructor call unchanged. -/
theorem unresolved_pointer_safe (regions : List Region) (raw : Addr)
    (asmjs : Bool) (g : GlobalSlot) (h : findRegion regions raw = none) :
    (raw = 0 → computePointerFromMemory regions raw asmjs =
      some LConstant.nullPtr) ∧
    (raw ≠ 0 → asmjs = true →
      computePointerFromMemory regions raw asmjs = none ∧
      commitReconstruction g (computePointerFromMemory regions raw asmjs) = g) := by
  constructor
  · intro h0
    subst h0
    simp [computePointerFromMemory, h]
  · intro h0 ha
    have hc : computePointerFromMemory regions raw asmjs = none := by
      simp [computePointerFromMemory, h, h0, ha]
    exact ⟨hc, by rw [hc]; rfl⟩

/-- C1 witness: with one tracked region `[50, 60)` and a restricted address
space, raw value 0 reconstructs to the null pointer, while raw value 77
(outside every region) aborts reconstruction and leaves the global's
initializer and constructor call intact. -/
theorem unresolved_pointer_safe_witness :
    (computePointerFromMemory [⟨50, 10, 3⟩] 0 true = some LConstant.nullPtr) ∧
    (computePointerFromMemory [⟨50, 10, 3⟩] 77 true = none) ∧
    (commitReconstruction ⟨LConstant.intConst 1, true⟩
      (computePointerFromMemory [⟨50, 10, 3⟩] 77 true) =
      ⟨LConstant.intConst 1, true⟩) := by
  have h0 := unresolved_pointer_safe [⟨50, 10, 3⟩] 0 true
    ⟨LConstant.intConst 1, true⟩ (by decide)
  have h77 := unresolved_pointer_safe [⟨50, 10, 3⟩] 77 true
    ⟨LConstant.intConst 1, true⟩ (by decide)
  exact ⟨h0.1 rfl, (h77.2 (by decide) rfl).1, (h77.2 (by decide) rfl).2⟩

/-! ## C6 -/

theorem buildStartCalls_eq_filter_map (l : List CtorEntry) :
    buildStartCalls l =
      (l.filter (fun e => decide (e.sec = "asmjs"))).map CtorEntry.fn := by
  induction l with
  | nil => rfl
  | cons e rest ih =>
      by_cases h : e.sec = "asmjs" <;>
        simp [buildStartCalls, List.filter_cons, h, ih]

/-- C6: whenever the start function is generated, the sequence of emitted
constructor calls equals the subsequence of the `llvm.global_ctors` entries
whose function is in the `asmjs` section, in list (declaration) order — and
never any other order. -/
theorem ctor_calls_in_declaration_order (wasmLoader : String)
    (ctors : List CtorEntry) (calls : List Nat)
    (h : ctorsRunOnModule wasmLoader ctors = some calls) :
    calls = (ctors.filter (fun e => decide (e.sec = "asmjs"))).map CtorEntry.fn := by
  by_cases hw : wasmLoader ≠ ""
  · simp [ctorsRunOnModule, hw] at h
  · by_cases hc : ctors.isEmpty
    · simp [ctorsRunOnModule, hw, hc] at h
    · have : some (buildStartCalls ctors) = some calls := by
        simpa [ctorsRunOnModule, hw, hc] using h
      rw [← Option.some.inj this]
      exact buildStartCalls_eq_filter_map ctors

/-- C6 witness: three constructors where the middle one is not in the
`asmjs` section; the generated call sequence is the first and third, in
that order. -/
theorem ctor_calls_in_declaration_order_witness :
    (ctorsRunOnModule "" [⟨1, "asmjs"⟩, ⟨2, "other"⟩, ⟨3, "asmjs"⟩] =
      some [1, 3]) ∧
    ([1, 3] = (([⟨1, "asmjs"⟩, ⟨2, "other"⟩, ⟨3, "asmjs"⟩] :
        List CtorEntry).filter (fun e => decide (e.sec = "asmjs"))).map
        CtorEntry.fn) := by
  refine ⟨rfl, ?_⟩
  exact ctor_calls_in_declaration_order ""
    [⟨1, "asmjs"⟩, ⟨2, "other"⟩, ⟨3, "asmjs"⟩] [1, 3] rfl

/-! ## C9 -/

theorem range_map_getD_eq_take (n : Nat) :
    ∀ args : List Nat, n ≤ args.length →
      (List.range n).map (fun i => args.getD i 0) = args.take n := by
  induction n with
  | zero => intro args _; simp
  | succ m ih =>
      intro args h
      cases args with
      | nil => simp at h
      | cons x xs =>
          rw [List.range_succ_eq_map]
          simp only [List.map_cons, List.map_map, List.getD_cons_zero,
            List.take_succ_cons]
          have hco : ((fun i => (x :: xs).getD i 0) ∘ Nat.succ) =
              (fun i => xs.getD i 0) := by
            funext i
            simp [Nat.succ_eq_add_one, List.getD_cons_succ]
          rw [hco, ih xs (by simpa using h)]

/-- C9: for every function `F` and argument list of length at least the
declared parameter count, `Interpreter::runFunction` invokes `F` (through
the interpreter's opaque call/run semantics) with exactly the first
`numParams` arguments — surplus arguments are silently discarded — and
returns the interpreter's exit value. -/
theorem runFunction_drops_surplus_args {St : Type}
    (callFunction : Nat → List Nat → St) (run : St → St)
    (exitValue : St → Nat) (F numParams : Nat) (args : List Nat)
    (h : numParams ≤ args.length) :
    runFunction callFunction run exitValue F numParams args =
      exitValue (run (callFunction F (args.take numParams))) := by
  unfold runFunction buildActualArgs
  rw [range_map_getD_eq_take numParams args h]

/-- C9 witness: a concrete interpreter semantics (sum the arguments onto
the function id) with 2 declared parameters and 3 supplied arguments: the
third argument is discarded. -/
theorem runFunction_drops_surplus_args_witness :
    (2 ≤ ([10, 20, 30] : List Nat).length) ∧
    (runFunction (fun F as => F + as.sum) id id 5 2 [10, 20, 30] = 35) := by
  refine ⟨by decide, ?_⟩
  rw [runFunction_drops_surplus_args (fun F as => F + as.sum) id id 5 2
    [10, 20, 30] (by decide)]
  rfl

/-! ## C10 -/

/-- C10: if materialization of the module fails, `Interpreter::create`
returns a null pointer without constructing an interpreter and writes the
error message through `ErrStr` exactly when `ErrStr` is non-null; if
materialization succeeds it returns a non-null engine and writes nothing. -/
theorem interpreterCreate_materialize (M : LModule) (preExecute errStrPresent : Bool) :
    (∀ EC, M.materializeResult = some EC →
      interpreterCreate M preExecute errStrPresent =
        (none, if errStrPresent then some EC.message else none)) ∧
    (M.materializeResult = none →
      interpreterCreate M preExecute errStrPresent =
        (some ⟨M, preExecute⟩, none)) := by
  constructor
  · intro EC h
    simp [interpreterCreate, h]
  · intro h
    simp [interpreterCreate, h]

/-- C10 witness: a module whose materialization fails with message "bad"
yields a null engine — with the message written iff `ErrStr` is non-null —
and a module that materializes yields a non-null engine. -/
theorem interpreterCreate_materialize_witness :
    (interpreterCreate ⟨some ⟨"bad"⟩⟩ true true = (none, some "bad")) ∧
    (interpreterCreate ⟨some ⟨"bad"⟩⟩ true false = (none, none)) ∧
    (interpreterCreate ⟨none⟩ true true = (some ⟨⟨none⟩, true⟩, none)) := by
  refine ⟨?_, ?_, ?_⟩
  · exact (interpreterCreate_materialize ⟨some ⟨"bad"⟩⟩ true true).1 ⟨"bad"⟩ rfl
  · exact (interpreterCreate_materialize ⟨some ⟨"bad"⟩⟩ true false).1 ⟨"bad"⟩ rfl
  · exact (interpreterCreate_materialize ⟨none⟩ true true).2 rfl

end CheerpPreExecute
